import Mathlib

/-!
Shallow embedding of `src/random_walk.py` (classes `RandomWalk` and
`RandomWalk2D`).

Modelling conventions:
* Python floats drawn by `random.uniform(0, 1)` and the bias `q` are
  modelled as rationals (`ℚ`); the only float operation the walk performs
  is the comparison `random.uniform(0, 1) <= self._q`.
* The global random stream is an explicit list of draws `us : List ℚ`;
  each repetition consumes `inner` draws (`us.take inner`), and the stream
  continues with `us.drop inner`.
* A Python `dict` (insertion ordered) is an association list; inserting a
  fresh key appends at the end and updating a key edits it in place, which
  is exactly what `dictIncr` does.
* `list.sort()` / `sorted(...)` on integers and on `(key, value)` items is
  modelled with `List.insertionSort`: the result of a stable ascending sort
  of integers (resp. of items compared lexicographically) is uniquely
  determined, so the choice of algorithm is immaterial.
* `numpy` matrices are lists of rows.  A float-matrix cell is an
  `Option Nat`: `some count` for a stored count, `none` for NaN.  numpy's
  float64 element assignment (`ndarray.itemset`) stores Python `None` as
  NaN, so the `None` returned by `dict.get` on a missing key silently
  becomes a NaN cell in the partitioned views.
-/

/-- One repetition's inner loop of `RandomWalk._compute_k`: current
position `k`, running maximum `highest`, one draw consumed per step.
A draw `u ≤ q` moves up (and bumps `highest` when exceeded), else down. -/
def walk_loop (q : ℚ) : List ℚ → Int → Int → Int
  | [], _, highest => highest
  | u :: us, k, highest =>
      if u ≤ q then
        walk_loop q us (k + 1) (if highest < k + 1 then k + 1 else highest)
      else
        walk_loop q us (k - 1) highest

/-- The constructor parameters of `RandomWalk.__init__` (`inner`, `outer`,
`q`, `z`), stored without any validation, exactly as the Python
constructor does. -/
structure RandomWalk where
  inner : Nat
  outer : Nat
  q : ℚ
  z : Int
deriving DecidableEq, Repr

/-- `RandomWalk.__init__`: stores the four parameters; performs no
validation whatsoever. -/
def RandomWalk.init (inner outer : Nat) (q : ℚ) (z : Int) : RandomWalk :=
  { inner := inner, outer := outer, q := q, z := z }

/-- `RandomWalk._compute_k`: one repetition; starts at `k = -z` with
`highest = k` and runs the inner loop on the repetition's draws. -/
def compute_k (w : RandomWalk) (us : List ℚ) : Int :=
  walk_loop w.q us (-w.z) (-w.z)

/-- `RandomWalk._compute_stopping_points`: `outer` repetitions, each
consuming `inner` draws from the stream. -/
def compute_stopping_points (w : RandomWalk) : Nat → List ℚ → List Int
  | 0, _ => []
  | n + 1, us =>
      compute_k w (us.take w.inner) :: compute_stopping_points w n (us.drop w.inner)

/-- Python `dict` occurrence counting: `values[point] += 1` if the key is
present (in-place update, order kept), else `values[point] = 1` (appended
at the end). -/
def dictIncr {α : Type} [DecidableEq α] (p : α) : List (α × Nat) → List (α × Nat)
  | [] => [(p, 1)]
  | (k, v) :: rest => if k = p then (k, v + 1) :: rest else (k, v) :: dictIncr p rest

/-- Python `dict.get`: the value at the first (only) matching key, `None`
when absent. -/
def dict_get {α : Type} [DecidableEq α] (d : List (α × Nat)) (p : α) : Option Nat :=
  match d with
  | [] => none
  | (k, v) :: rest => if k = p then some v else dict_get rest p

/-- `dict.get` with default `0` (what `get_matrix` effectively reads, via
its `in dict` test before `dict.get`). -/
def dictGetD {α : Type} [DecidableEq α] (d : List (α × Nat)) (p : α) : Nat :=
  (dict_get d p).getD 0

/-- Number of occurrences of `p` in a list (used to state what the dict
counting computes). -/
def occ_count {α : Type} [DecidableEq α] (p : α) : List α → Nat
  | [] => 0
  | a :: rest => (if a = p then 1 else 0) + occ_count p rest

/-- `RandomWalk._compute_values`: sorts the stopping points ascending and
counts occurrences into an (insertion-ordered, hence key-sorted) dict. -/
def compute_values (pts : List Int) : List (Int × Nat) :=
  (List.insertionSort (fun a b => a ≤ b) pts).foldl (fun d p => dictIncr p d) []

/-- The state written by `RandomWalk.compute`: `_values` (dict keys),
`_heights` (dict values) and `_dict`. -/
structure Computed where
  values : List Int
  heights : List Nat
  dict : List (Int × Nat)
deriving DecidableEq, Repr

/-- `RandomWalk.compute`: builds the dict from the stopping points, then
projects `_values` and `_heights`. -/
def RandomWalk.compute (w : RandomWalk) (us : List ℚ) : Computed :=
  let d := compute_values (compute_stopping_points w w.outer us)
  { values := d.map Prod.fst, heights := d.map Prod.snd, dict := d }

/-- `RandomWalk.get_zero_or_above_value_index`: scans `_values` in order
and returns the first index whose value is `≥ 0`, `None` otherwise. -/
def get_zero_or_above_value_index (vals : List Int) : Option Nat :=
  match vals with
  | [] => none
  | v :: rest =>
      if 0 ≤ v then some 0 else (get_zero_or_above_value_index rest).map (· + 1)

/-- `RandomWalk.get_success`: note the Python truthiness test `if i:`,
which sends both `None` and the index `0` to the `return 0` branch. -/
def get_success (w : RandomWalk) (c : Computed) : ℚ :=
  match get_zero_or_above_value_index c.values with
  | some i =>
      if i = 0 then 0
      else 1 - (((w.outer : ℚ) - (((c.heights.drop i).sum : Nat) : ℚ)) / (w.outer : ℚ))
  | none => 0

/-- Strict lexicographic order on integer pairs: Python tuple `<`. -/
def pairLt (a b : Int × Int) : Prop :=
  a.1 < b.1 ∨ (a.1 = b.1 ∧ a.2 < b.2)

/-- Python tuple `≤` on dict items `((x, y), count)`, as used by
`sorted(values.items())`: keys compared lexicographically first, counts
only on equal keys (which never happens, keys being distinct). -/
def itemLe (a b : (Int × Int) × Nat) : Prop :=
  pairLt a.1 b.1 ∨ (a.1 = b.1 ∧ a.2 ≤ b.2)

instance : DecidableRel pairLt := fun a b =>
  inferInstanceAs (Decidable (a.1 < b.1 ∨ (a.1 = b.1 ∧ a.2 < b.2)))

instance : DecidableRel itemLe := fun a b =>
  inferInstanceAs (Decidable (pairLt a.1 b.1 ∨ (a.1 = b.1 ∧ a.2 ≤ b.2)))

instance : IsTotal ((Int × Int) × Nat) itemLe where
  total := by
    rintro ⟨⟨x1, y1⟩, v1⟩ ⟨⟨x2, y2⟩, v2⟩
    simp only [itemLe, pairLt, Prod.mk.injEq]
    omega

instance : IsTrans ((Int × Int) × Nat) itemLe where
  trans := by
    rintro ⟨⟨x1, y1⟩, v1⟩ ⟨⟨x2, y2⟩, v2⟩ ⟨⟨x3, y3⟩, v3⟩
    simp only [itemLe, pairLt, Prod.mk.injEq]
    omega

/-- `RandomWalk2D._compute_values_2d`: pairs the two stopping-point lists
positionally, counts occurrences into an insertion-ordered dict, then
sorts the items (`dict(sorted(values.items()))`). -/
def compute_values_2d (first second : List Int) : List ((Int × Int) × Nat) :=
  List.insertionSort itemLe ((first.zip second).foldl (fun d p => dictIncr p d) [])

/-- The state written by `RandomWalk2D.compute`. -/
structure Computed2D where
  values : List (Int × Int)
  heights : List Nat
  dict : List ((Int × Int) × Nat)
deriving DecidableEq, Repr

/-- `RandomWalk2D.compute`: two independent runs of
`_compute_stopping_points` (the second continuing on the random stream
after the `outer * inner` draws the first consumed), paired into the 2D
dict. -/
def RandomWalk.compute_2d (w : RandomWalk) (us : List ℚ) : Computed2D :=
  let first := compute_stopping_points w w.outer us
  let second := compute_stopping_points w w.outer (us.drop (w.outer * w.inner))
  let d := compute_values_2d first second
  { values := d.map Prod.fst, heights := d.map Prod.snd, dict := d }

/-- `RandomWalk2D.get_x_values`. -/
def get_x_values (c : Computed2D) : List Int := c.values.map Prod.fst

/-- `RandomWalk2D.get_y_values`. -/
def get_y_values (c : Computed2D) : List Int := c.values.map Prod.snd

/-- Python `sorted(list(set(l)))`: ascending list of the distinct
elements. -/
def sorted_set (l : List Int) : List Int :=
  List.insertionSort (fun a b => a ≤ b) l.dedup

/-- `RandomWalk2D.get_matrix`: the three co-indexed grids; a z-cell is the
dict count at its `(x, y)` coordinate, `0` when absent (the code
zero-fills and only overwrites keys present in the dict). -/
def get_matrix (c : Computed2D) :
    List (List Int) × List (List Int) × List (List Nat) :=
  let x := sorted_set (get_x_values c)
  let y := sorted_set (get_y_values c)
  let mx := List.replicate y.length x
  let my := y.map (fun yv => List.replicate x.length yv)
  let mz := y.map (fun yv => x.map (fun xv => dictGetD c.dict (xv, yv)))
  (mx, my, mz)

/-- One row of `get_below_zero_matrix`/`get_above_zero_matrix`'s fill
loop: a qualifying cell stores `dict.get` of its coordinate — the count
when the coordinate was observed, and `None` (which numpy's float
element assignment stores as NaN) when it was not — while a
non-qualifying cell keeps the NaN fill (`none`). -/
def masked_row (d : List ((Int × Int) × Nat)) (cond : Int → Int → Bool) (yv : Int) :
    List Int → List (Option Nat)
  | [] => []
  | xv :: xs =>
      (if cond xv yv then dict_get d (xv, yv) else none) :: masked_row d cond yv xs

/-- The row-major fill loop shared by the two partitioned-matrix
accessors. -/
def masked_rows (d : List ((Int × Int) × Nat)) (cond : Int → Int → Bool) (x : List Int) :
    List Int → List (List (Option Nat))
  | [] => []
  | yv :: ys => masked_row d cond yv x :: masked_rows d cond x ys

/-- `RandomWalk2D.get_below_zero_matrix`: condition `x < 0 or y < 0`. -/
def get_below_zero_matrix (c : Computed2D) : List (List (Option Nat)) :=
  masked_rows c.dict (fun xv yv => xv < 0 || yv < 0)
    (sorted_set (get_x_values c)) (sorted_set (get_y_values c))

/-- `RandomWalk2D.get_above_zero_matrix`: condition `x >= 0 and y >= 0`. -/
def get_above_zero_matrix (c : Computed2D) : List (List (Option Nat)) :=
  masked_rows c.dict (fun xv yv => 0 ≤ xv && 0 ≤ yv)
    (sorted_set (get_x_values c)) (sorted_set (get_y_values c))

example :
    (RandomWalk.init 1 2 (mkRat 1 2) 1).compute_2d
        [mkRat 9 10, mkRat 1 10, mkRat 1 10, mkRat 9 10] =
      { values := [(-1, 0), (0, -1)], heights := [1, 1],
        dict := [((-1, 0), 1), ((0, -1), 1)] } := by decide

example :
    get_below_zero_matrix ((RandomWalk.init 1 2 (mkRat 1 2) 1).compute_2d
        [mkRat 9 10, mkRat 1 10, mkRat 1 10, mkRat 9 10]) =
      [[none, some 1], [some 1, none]] := by decide

example :
    get_above_zero_matrix ((RandomWalk.init 1 2 (mkRat 1 2) 1).compute_2d
        [mkRat 9 10, mkRat 1 10, mkRat 1 10, mkRat 9 10]) =
      [[none, none], [none, none]] := by decide

example :
    get_matrix ((RandomWalk.init 1 2 1 0).compute_2d [0, 0, 0, 0]) =
      ([[1]], [[1]], [[2]]) := by decide

/-! ### Walk-level lemmas -/

theorem walk_loop_ge (q : ℚ) (us : List ℚ) : ∀ k h : Int, h ≤ walk_loop q us k h := by
  induction us with
  | nil => intro k h; exact le_refl h
  | cons u us ih =>
      intro k h
      by_cases hu : u ≤ q
      · simp only [walk_loop, hu, if_true]
        refine le_trans ?_ (ih (k + 1) _)
        by_cases hh : h < k + 1 <;> simp [hh] <;> omega
      · simp only [walk_loop, hu, if_false]
        exact ih (k - 1) h

theorem walk_loop_le (q : ℚ) (us : List ℚ) :
    ∀ k h : Int, walk_loop q us k h ≤ max h (k + us.length) := by
  induction us with
  | nil => intro k h; simp [walk_loop]
  | cons u us ih =>
      intro k h
      by_cases hu : u ≤ q
      · simp only [walk_loop, hu, if_true]
        refine le_trans (ih (k + 1) _) ?_
        simp only [List.length_cons, max_le_iff, le_max_iff]
        by_cases hh : h < k + 1 <;> simp [hh] <;> push_cast <;> omega
      · simp only [walk_loop, hu, if_false]
        refine le_trans (ih (k - 1) h) ?_
        simp only [List.length_cons, max_le_iff, le_max_iff]
        push_cast
        omega

theorem compute_k_ge (w : RandomWalk) (us : List ℚ) : -w.z ≤ compute_k w us :=
  walk_loop_ge w.q us (-w.z) (-w.z)

theorem compute_k_le (w : RandomWalk) (us : List ℚ) :
    compute_k w us ≤ -w.z + us.length := by
  refine le_trans (walk_loop_le w.q us (-w.z) (-w.z)) ?_
  simp only [max_le_iff]
  constructor <;> omega

theorem length_compute_stopping_points (w : RandomWalk) :
    ∀ (n : Nat) (us : List ℚ), (compute_stopping_points w n us).length = n := by
  intro n
  induction n with
  | zero => intro us; rfl
  | succ n ih => intro us; simp [compute_stopping_points, ih]

theorem mem_compute_stopping_points (w : RandomWalk) :
    ∀ (n : Nat) (us : List ℚ) (v : Int), v ∈ compute_stopping_points w n us →
      ∃ s : List ℚ, s.length ≤ w.inner ∧ v = compute_k w s := by
  intro n
  induction n with
  | zero => intro us v hv; simp [compute_stopping_points] at hv
  | succ n ih =>
      intro us v hv
      simp only [compute_stopping_points, List.mem_cons] at hv
      rcases hv with hv | hv
      · exact ⟨us.take w.inner, by simp, hv⟩
      · exact ih _ v hv

/-! ### Dict (association-list) lemmas -/

theorem sum_snd_dictIncr {α : Type} [DecidableEq α] (p : α) (d : List (α × Nat)) :
    ((dictIncr p d).map Prod.snd).sum = (d.map Prod.snd).sum + 1 := by
  induction d with
  | nil => rfl
  | cons kv rest ih =>
      obtain ⟨k, v⟩ := kv
      by_cases hk : k = p
      · simp [dictIncr, hk]
        omega
      · simp [dictIncr, hk, ih]
        omega

theorem sum_snd_foldl {α : Type} [DecidableEq α] (pts : List α) :
    ∀ d : List (α × Nat),
      ((pts.foldl (fun d p => dictIncr p d) d).map Prod.snd).sum
        = (d.map Prod.snd).sum + pts.length := by
  induction pts with
  | nil => intro d; simp
  | cons p pts ih =>
      intro d
      simp only [List.foldl_cons, List.length_cons, ih (dictIncr p d), sum_snd_dictIncr]
      omega

theorem mem_keys_dictIncr {α : Type} [DecidableEq α] (p a : α) (d : List (α × Nat)) :
    a ∈ (dictIncr p d).map Prod.fst ↔ a = p ∨ a ∈ d.map Prod.fst := by
  induction d with
  | nil => simp [dictIncr]
  | cons kv rest ih =>
      obtain ⟨k, v⟩ := kv
      by_cases hk : k = p
      · subst hk
        rw [show dictIncr k ((k, v) :: rest) = (k, v + 1) :: rest from by simp [dictIncr]]
        simp only [List.map_cons, List.mem_cons]
        tauto
      · simp only [dictIncr, if_neg hk, List.map_cons, List.mem_cons, ih]
        tauto

theorem dictGetD_dictIncr {α : Type} [DecidableEq α] (p a : α) (d : List (α × Nat)) :
    dictGetD (dictIncr p d) a = dictGetD d a + (if a = p then 1 else 0) := by
  induction d with
  | nil =>
      simp only [dictIncr, dictGetD, dict_get]
      rcases eq_or_ne a p with h | h
      · subst h; simp
      · simp [h, Ne.symm h]
  | cons kv rest ih =>
      obtain ⟨k, v⟩ := kv
      rcases eq_or_ne k p with hk | hk
      · subst hk
        simp only [dictIncr, if_pos rfl, dictGetD, dict_get]
        rcases eq_or_ne k a with hak | hak
        · subst hak; simp
        · simp [hak, Ne.symm hak, dictGetD]
      · simp only [dictIncr, if_neg hk, dictGetD, dict_get]
        rcases eq_or_ne k a with hak | hak
        · subst hak
          simp [hk]
        · simp only [if_neg hak]
          simpa [dictGetD] using ih

theorem mem_keys_foldl {α : Type} [DecidableEq α] (pts : List α) :
    ∀ (d : List (α × Nat)) (a : α),
      (a ∈ (pts.foldl (fun d p => dictIncr p d) d).map Prod.fst) ↔
        a ∈ pts ∨ a ∈ d.map Prod.fst := by
  induction pts with
  | nil => intro d a; simp
  | cons p pts ih =>
      intro d a
      simp only [List.foldl_cons, ih, mem_keys_dictIncr, List.mem_cons]
      tauto

theorem dictGetD_foldl {α : Type} [DecidableEq α] (pts : List α) :
    ∀ (d : List (α × Nat)) (a : α),
      dictGetD (pts.foldl (fun d p => dictIncr p d) d) a = dictGetD d a + occ_count a pts := by
  induction pts with
  | nil => intro d a; simp [occ_count]
  | cons p pts ih =>
      intro d a
      simp only [List.foldl_cons, ih, dictGetD_dictIncr, occ_count]
      by_cases hap : a = p
      · subst hap
        simp
        omega
      · simp [hap, Ne.symm hap]

theorem nodupKeys_dictIncr {α : Type} [DecidableEq α] (p : α) (d : List (α × Nat))
    (h : (d.map Prod.fst).Nodup) : ((dictIncr p d).map Prod.fst).Nodup := by
  induction d with
  | nil => simp [dictIncr]
  | cons kv rest ih =>
      obtain ⟨k, v⟩ := kv
      simp only [List.map_cons, List.nodup_cons] at h
      by_cases hk : k = p
      · subst hk
        rw [show dictIncr k ((k, v) :: rest) = (k, v + 1) :: rest from by simp [dictIncr]]
        simpa using h
      · simp only [dictIncr, if_neg hk, List.map_cons, List.nodup_cons]
        refine ⟨?_, ih h.2⟩
        rw [mem_keys_dictIncr]
        rintro (rfl | hm)
        · exact hk rfl
        · exact h.1 hm

theorem nodupKeys_foldl {α : Type} [DecidableEq α] (pts : List α) :
    ∀ d : List (α × Nat), (d.map Prod.fst).Nodup →
      ((pts.foldl (fun d p => dictIncr p d) d).map Prod.fst).Nodup := by
  induction pts with
  | nil => intro d h; exact h
  | cons p pts ih => intro d h; exact ih _ (nodupKeys_dictIncr p d h)

theorem dict_get_eq_none_iff {α : Type} [DecidableEq α] (d : List (α × Nat)) (a : α) :
    dict_get d a = none ↔ a ∉ d.map Prod.fst := by
  induction d with
  | nil => simp [dict_get]
  | cons kv rest ih =>
      obtain ⟨k, v⟩ := kv
      rcases eq_or_ne k a with hk | hk
      · subst hk; simp [dict_get]
      · simp [dict_get, hk, ih, Ne.symm hk]

theorem dict_get_some_iff {α : Type} [DecidableEq α] {d : List (α × Nat)}
    (hnd : (d.map Prod.fst).Nodup) {a : α} {v : Nat} :
    dict_get d a = some v ↔ (a, v) ∈ d := by
  induction d with
  | nil => simp [dict_get]
  | cons kv rest ih =>
      obtain ⟨k, w⟩ := kv
      simp only [List.map_cons, List.nodup_cons] at hnd
      rcases eq_or_ne k a with hk | hk
      · subst hk
        rw [show dict_get ((k, w) :: rest) k = some w from by simp [dict_get]]
        simp only [List.mem_cons, Option.some.injEq, Prod.mk.injEq]
        constructor
        · rintro rfl; exact Or.inl ⟨trivial, rfl⟩
        · rintro (⟨-, rfl⟩ | hm)
          · rfl
          · exact absurd (by simpa using List.mem_map_of_mem Prod.fst hm) hnd.1
      · simp [dict_get, if_neg hk, ih hnd.2, Prod.ext_iff, Ne.symm hk]

theorem dict_get_perm {α : Type} [DecidableEq α] {d1 d2 : List (α × Nat)}
    (hp : d1.Perm d2) (hnd : (d1.map Prod.fst).Nodup) (a : α) :
    dict_get d1 a = dict_get d2 a := by
  have hnd2 : (d2.map Prod.fst).Nodup := ((hp.map Prod.fst).nodup_iff).mp hnd
  cases h1 : dict_get d1 a with
  | none =>
      symm
      rw [dict_get_eq_none_iff] at h1 ⊢
      exact fun hm => h1 (((hp.map Prod.fst).mem_iff).mpr hm)
  | some v =>
      symm
      rw [dict_get_some_iff hnd2]
      exact (hp.mem_iff).mp ((dict_get_some_iff hnd).mp h1)

/-! ### Characterisation of the computed distributions -/

theorem compute_values_sum (pts : List Int) :
    ((compute_values pts).map Prod.snd).sum = pts.length := by
  unfold compute_values
  rw [sum_snd_foldl]
  simp [(List.perm_insertionSort (fun a b => a ≤ b) pts).length_eq]

theorem mem_keys_compute_values (pts : List Int) (a : Int) :
    a ∈ (compute_values pts).map Prod.fst ↔ a ∈ pts := by
  unfold compute_values
  rw [mem_keys_foldl]
  simp [(List.perm_insertionSort (fun a b => a ≤ b) pts).mem_iff]

theorem nodup_keys_compute_values (pts : List Int) :
    ((compute_values pts).map Prod.fst).Nodup := by
  unfold compute_values
  exact nodupKeys_foldl _ _ (by simp)

theorem compute_values_2d_perm (first second : List Int) :
    (compute_values_2d first second).Perm
      ((first.zip second).foldl (fun d p => dictIncr p d) []) :=
  List.perm_insertionSort itemLe _

theorem nodup_keys_compute_values_2d (first second : List Int) :
    ((compute_values_2d first second).map Prod.fst).Nodup :=
  (((compute_values_2d_perm first second).map Prod.fst).nodup_iff).mpr
    (nodupKeys_foldl _ _ (by simp))

theorem sum_snd_compute_values_2d (first second : List Int) :
    ((compute_values_2d first second).map Prod.snd).sum = (first.zip second).length := by
  rw [((compute_values_2d_perm first second).map Prod.snd).sum_eq, sum_snd_foldl]
  simp

theorem dictGetD_compute_values_2d (first second : List Int) (p : Int × Int) :
    dictGetD (compute_values_2d first second) p = occ_count p (first.zip second) := by
  unfold dictGetD
  rw [dict_get_perm (compute_values_2d_perm first second)
    (nodup_keys_compute_values_2d first second)]
  have := dictGetD_foldl (first.zip second) [] p
  simpa [dictGetD, dict_get] using this

theorem mem_keys_compute_values_2d (first second : List Int) (p : Int × Int) :
    p ∈ (compute_values_2d first second).map Prod.fst ↔ p ∈ first.zip second := by
  rw [((compute_values_2d_perm first second).map Prod.fst).mem_iff, mem_keys_foldl]
  simp

theorem sorted_keys_compute_values_2d (first second : List Int) :
    ((compute_values_2d first second).map Prod.fst).Pairwise pairLt := by
  have hs : List.Pairwise itemLe (compute_values_2d first second) :=
    List.sorted_insertionSort itemLe _
  have hnd : ((compute_values_2d first second).map Prod.fst).Nodup :=
    nodup_keys_compute_values_2d first second
  have hnd' : List.Pairwise (fun a b : (Int × Int) × Nat => a.1 ≠ b.1)
      (compute_values_2d first second) := List.pairwise_map.mp hnd
  have hlt : List.Pairwise (fun a b : (Int × Int) × Nat => pairLt a.1 b.1)
      (compute_values_2d first second) := by
    refine (hs.and hnd').imp ?_
    rintro a b ⟨hle | ⟨heq, _⟩, hne⟩
    · exact hle
    · exact absurd heq hne
  exact List.pairwise_map.mpr hlt

/-! ### Sorted distinct values and grid sums -/

theorem mem_sorted_set (l : List Int) (a : Int) : a ∈ sorted_set l ↔ a ∈ l := by
  unfold sorted_set
  rw [(List.perm_insertionSort (fun a b => a ≤ b) l.dedup).mem_iff, List.mem_dedup]

theorem nodup_sorted_set (l : List Int) : (sorted_set l).Nodup := by
  unfold sorted_set
  exact ((List.perm_insertionSort (fun a b => a ≤ b) l.dedup).nodup_iff).mpr l.nodup_dedup

theorem pairwise_lt_sorted_set (l : List Int) : (sorted_set l).Pairwise (· < ·) := by
  have hs : (sorted_set l).Pairwise (fun a b : Int => a ≤ b) :=
    List.sorted_insertionSort (fun a b => a ≤ b) l.dedup
  have hnd : (sorted_set l).Nodup := nodup_sorted_set l
  exact (hs.and hnd).imp (fun h => lt_of_le_of_ne h.1 h.2)

theorem sum_map_update {α : Type} [DecidableEq α] (l : List α) (hnd : l.Nodup)
    (a : α) (ha : a ∈ l) (f g : α → Nat) (v : Nat)
    (hfg : ∀ b ∈ l, b ≠ a → f b = g b) (hfa : f a = g a + v) :
    (l.map f).sum = (l.map g).sum + v := by
  induction l with
  | nil => cases ha
  | cons b l ih =>
      simp only [List.nodup_cons] at hnd
      rcases List.mem_cons.mp ha with rfl | hmem
      · simp only [List.map_cons, List.sum_cons, hfa]
        have hrest : ∀ c ∈ l, f c = g c := fun c hc =>
          hfg c (List.mem_cons_of_mem _ hc) (fun he => hnd.1 (he ▸ hc))
        rw [List.map_congr_left hrest]
        omega
      · have hba : b ≠ a := fun he => hnd.1 (he ▸ hmem)
        simp only [List.map_cons, List.sum_cons, hfg b (List.mem_cons_self b l) hba]
        rw [ih hnd.2 hmem (fun c hc hca => hfg c (List.mem_cons_of_mem _ hc) hca)]
        omega

theorem dictGetD_cons (kx ky : Int) (v : Nat) (rest : List ((Int × Int) × Nat))
    (xv yv : Int) :
    dictGetD (((kx, ky), v) :: rest) (xv, yv)
      = if (kx, ky) = (xv, yv) then v else dictGetD rest (xv, yv) := by
  by_cases h : (kx, ky) = (xv, yv) <;> simp [dictGetD, dict_get, h]

theorem grid_sum (X Y : List Int) (hX : X.Nodup) (hY : Y.Nodup) :
    ∀ d : List ((Int × Int) × Nat), (d.map Prod.fst).Nodup →
      (∀ kv ∈ d, kv.1.1 ∈ X ∧ kv.1.2 ∈ Y) →
      (Y.map (fun yv => (X.map (fun xv => dictGetD d (xv, yv))).sum)).sum
        = (d.map Prod.snd).sum := by
  intro d
  induction d with
  | nil =>
      intro _ _
      simp [dictGetD, dict_get]
  | cons kv rest ih =>
      obtain ⟨⟨kx, ky⟩, v⟩ := kv
      intro hnd hmem
      simp only [List.map_cons, List.nodup_cons] at hnd
      obtain ⟨hkx, hky⟩ := hmem _ (List.mem_cons_self _ _)
      have hrest0 : dictGetD rest (kx, ky) = 0 := by
        simp [dictGetD, (dict_get_eq_none_iff rest (kx, ky)).mpr hnd.1]
      have hrow : ∀ yv ∈ Y, yv ≠ ky →
          (X.map (fun xv => dictGetD (((kx, ky), v) :: rest) (xv, yv))).sum
            = (X.map (fun xv => dictGetD rest (xv, yv))).sum := by
        intro yv _ hne
        refine congrArg List.sum (List.map_congr_left ?_)
        intro xv _
        rw [dictGetD_cons, if_neg]
        intro h
        exact hne (by injection h with h1 h2; exact h2.symm ▸ rfl)
      have hrowk :
          (X.map (fun xv => dictGetD (((kx, ky), v) :: rest) (xv, ky))).sum
            = (X.map (fun xv => dictGetD rest (xv, ky))).sum + v := by
        refine sum_map_update X hX kx hkx _ _ v ?_ ?_
        · intro xv _ hxne
          rw [dictGetD_cons, if_neg]
          intro h
          exact hxne (by injection h with h1 h2; exact h1.symm ▸ rfl)
        · rw [dictGetD_cons, if_pos rfl, hrest0]
          omega
      have hsum := sum_map_update Y hY ky hky
        (fun yv => (X.map (fun xv => dictGetD (((kx, ky), v) :: rest) (xv, yv))).sum)
        (fun yv => (X.map (fun xv => dictGetD rest (xv, yv))).sum)
        v hrow hrowk
      rw [hsum, ih hnd.2 (fun kv hkv => hmem kv (List.mem_cons_of_mem _ hkv))]
      simp only [List.map_cons, List.sum_cons]
      omega

/-! ### Partitioned-matrix fill loop lemmas -/

theorem masked_row_eq_map (d : List ((Int × Int) × Nat)) (cond : Int → Int → Bool)
    (yv : Int) :
    ∀ X : List Int, masked_row d cond yv X
      = X.map (fun xv => if cond xv yv then dict_get d (xv, yv) else none) := by
  intro X
  induction X with
  | nil => rfl
  | cons xv xs ih => simp [masked_row, ih]

theorem masked_rows_eq_map (d : List ((Int × Int) × Nat)) (cond : Int → Int → Bool)
    (X : List Int) :
    ∀ Y : List Int, masked_rows d cond X Y
      = Y.map (fun yv =>
          X.map (fun xv => if cond xv yv then dict_get d (xv, yv) else none)) := by
  intro Y
  induction Y with
  | nil => rfl
  | cons yv ys ih => simp [masked_rows, ih, masked_row_eq_map]

/-! ### First-nonnegative-index scan -/

theorem get_zero_or_above_spec (vals : List Int) :
    (∀ i, get_zero_or_above_value_index vals = some i →
      ∃ hi : i < vals.length, 0 ≤ vals.get ⟨i, hi⟩ ∧
        ∀ j, ∀ hj : j < vals.length, j < i → vals.get ⟨j, hj⟩ < 0) ∧
    (get_zero_or_above_value_index vals = none ↔ ∀ v ∈ vals, v < 0) := by
  induction vals with
  | nil =>
      constructor
      · intro i h; cases h
      · simp [get_zero_or_above_value_index]
  | cons v rest ih =>
      constructor
      · intro i h
        by_cases hv : 0 ≤ v
        · simp only [get_zero_or_above_value_index, if_pos hv, Option.some.injEq] at h
          subst h
          refine ⟨by simp, by simpa using hv, ?_⟩
          intro j hj hji
          omega
        · simp only [get_zero_or_above_value_index, if_neg hv,
            Option.map_eq_some'] at h
          obtain ⟨i2, hi2, rfl⟩ := h
          obtain ⟨hlt, hval, hmin⟩ := ih.1 i2 hi2
          refine ⟨by simpa using Nat.succ_lt_succ hlt, by simpa using hval, ?_⟩
          intro j hj hji
          cases j with
          | zero => simpa using lt_of_not_le hv
          | succ j2 =>
              have := hmin j2 (by simpa using Nat.lt_of_succ_lt_succ hj)
                (Nat.lt_of_succ_lt_succ hji)
              simpa using this
      · by_cases hv : 0 ≤ v
        · constructor
          · intro h
            simp [get_zero_or_above_value_index, hv] at h
          · intro hall
            exact absurd hv (not_le.mpr (hall v (List.mem_cons_self _ _)))
        · rw [show get_zero_or_above_value_index (v :: rest)
              = (get_zero_or_above_value_index rest).map (· + 1) from by
            simp [get_zero_or_above_value_index, hv]]
          rw [Option.map_eq_none', ih.2]
          constructor
          · intro hrest u hu
            rcases List.mem_cons.mp hu with rfl | hu2
            · omega
            · exact hrest u hu2
          · intro hall u hu
            exact hall u (List.mem_cons_of_mem _ hu)

/-! ### Claim theorems -/

/-- **C2**: after `compute()`, the occurrence counts (`heights`) of both
the 1D and the 2D distribution sum to `outerRepetitions`, for every
parameter set (in particular every valid one) and every draw stream. -/
theorem C2_sum_heights_eq_outer (w : RandomWalk) (us : List ℚ) :
    ((w.compute us).heights).sum = w.outer ∧
      ((w.compute_2d us).heights).sum = w.outer := by
  constructor
  · show ((compute_values (compute_stopping_points w w.outer us)).map Prod.snd).sum = w.outer
    rw [compute_values_sum, length_compute_stopping_points]
  · show ((compute_values_2d _ _).map Prod.snd).sum = w.outer
    rw [sum_snd_compute_values_2d, List.length_zip,
      length_compute_stopping_points, length_compute_stopping_points]
    exact Nat.min_self w.outer

/-- **C7**: one repetition (`_compute_k`) always returns at least the
starting position `-z`, and hence every key of a computed 1D
distribution is at least `-startOffset`. -/
theorem C7_repetition_ge_start (w : RandomWalk) (us : List ℚ) :
    -w.z ≤ compute_k w us ∧ ∀ v ∈ (w.compute us).values, -w.z ≤ v := by
  refine ⟨compute_k_ge w us, ?_⟩
  intro v hv
  have hmem : v ∈ compute_stopping_points w w.outer us := by
    have : v ∈ (compute_values (compute_stopping_points w w.outer us)).map Prod.fst := hv
    rwa [mem_keys_compute_values] at this
  obtain ⟨s, _, rfl⟩ := mem_compute_stopping_points w w.outer us v hmem
  exact compute_k_ge w s

/-- Witness for C7 at `inner=1, outer=4, q=1, z=0`, draws all `0`. -/
theorem C7_repetition_ge_start_witness :
    -(RandomWalk.init 1 4 1 0).z ≤ compute_k (RandomWalk.init 1 4 1 0) [0] ∧
      ((1 : Int) ∈ ((RandomWalk.init 1 4 1 0).compute [0, 0, 0, 0]).values ∧
        -(RandomWalk.init 1 4 1 0).z ≤ (1 : Int)) :=
  ⟨(C7_repetition_ge_start (RandomWalk.init 1 4 1 0) [0]).1,
    by decide,
    (C7_repetition_ge_start (RandomWalk.init 1 4 1 0) [0, 0, 0, 0]).2 1 (by decide)⟩

/-- **C10**: one repetition, consuming its `inner` draws, returns at most
`inner - z`; every key of a computed 1D distribution lies in
`[-startOffset, innerSteps - startOffset]`. -/
theorem C10_repetition_le_inner (w : RandomWalk) (us : List ℚ) :
    compute_k w (us.take w.inner) ≤ (w.inner : Int) - w.z ∧
      ∀ v ∈ (w.compute us).values, -w.z ≤ v ∧ v ≤ (w.inner : Int) - w.z := by
  constructor
  · have h := compute_k_le w (us.take w.inner)
    have h2 : ((us.take w.inner).length : Int) ≤ (w.inner : Int) := by
      have := List.length_take w.inner us
      omega
    omega
  · intro v hv
    have hmem : v ∈ compute_stopping_points w w.outer us := by
      have : v ∈ (compute_values (compute_stopping_points w w.outer us)).map Prod.fst := hv
      rwa [mem_keys_compute_values] at this
    obtain ⟨s, hs, rfl⟩ := mem_compute_stopping_points w w.outer us v hmem
    refine ⟨compute_k_ge w s, ?_⟩
    have h := compute_k_le w s
    have h2 : (s.length : Int) ≤ (w.inner : Int) := by exact_mod_cast hs
    omega

/-- Witness for C10 at `inner=1, outer=4, q=1, z=0`, draws all `0`. -/
theorem C10_repetition_le_inner_witness :
    compute_k (RandomWalk.init 1 4 1 0) ([0, 0, 0, 0].take (RandomWalk.init 1 4 1 0).inner)
        ≤ ((RandomWalk.init 1 4 1 0).inner : Int) - (RandomWalk.init 1 4 1 0).z ∧
      (((1 : Int) ∈ ((RandomWalk.init 1 4 1 0).compute [0, 0, 0, 0]).values) ∧
        (-(RandomWalk.init 1 4 1 0).z ≤ (1 : Int) ∧
          (1 : Int) ≤ ((RandomWalk.init 1 4 1 0).inner : Int) - (RandomWalk.init 1 4 1 0).z)) :=
  ⟨(C10_repetition_le_inner (RandomWalk.init 1 4 1 0) [0, 0, 0, 0]).1,
    by decide,
    (C10_repetition_le_inner (RandomWalk.init 1 4 1 0) [0, 0, 0, 0]).2 1 (by decide)⟩

/-- **C9**: `compute()` (1D and 2D) is a deterministic function of the
parameters and the random draw stream: identical draws give identical
`values`, `heights` and distributions. -/
theorem C9_determinism (w : RandomWalk) (us1 us2 : List ℚ) (h : us1 = us2) :
    w.compute us1 = w.compute us2 ∧ w.compute_2d us1 = w.compute_2d us2 := by
  subst h
  exact ⟨rfl, rfl⟩

/-- Witness for C9 at a concrete parameter set and draw stream. -/
theorem C9_determinism_witness :
    (RandomWalk.init 1 4 1 0).compute [0, 0, 0, 0]
        = (RandomWalk.init 1 4 1 0).compute [0, 0, 0, 0] ∧
      (RandomWalk.init 1 4 1 0).compute_2d [0, 0, 0, 0]
        = (RandomWalk.init 1 4 1 0).compute_2d [0, 0, 0, 0] :=
  C9_determinism (RandomWalk.init 1 4 1 0) [0, 0, 0, 0] [0, 0, 0, 0] rfl

/-- **C3**: `get_zero_or_above_value_index` on a computed 1D sampler
returns the smallest index whose value is `≥ 0`, and returns `None`
exactly when every value of the distribution is negative. -/
theorem C3_first_nonneg_index (w : RandomWalk) (us : List ℚ) :
    (∀ i, get_zero_or_above_value_index (w.compute us).values = some i →
      ∃ hi : i < (w.compute us).values.length,
        0 ≤ (w.compute us).values.get ⟨i, hi⟩ ∧
          ∀ j, ∀ hj : j < (w.compute us).values.length, j < i →
            (w.compute us).values.get ⟨j, hj⟩ < 0) ∧
    (get_zero_or_above_value_index (w.compute us).values = none ↔
      ∀ v ∈ (w.compute us).values, v < 0) :=
  get_zero_or_above_spec (w.compute us).values

/-- Witness for C3: at `inner=1, outer=4, bias=1, z=0` the scan returns
index 0, whose value is nonnegative and minimal. -/
theorem C3_first_nonneg_index_witness :
    ∃ hi : 0 < ((RandomWalk.init 1 4 1 0).compute [0, 0, 0, 0]).values.length,
      0 ≤ ((RandomWalk.init 1 4 1 0).compute [0, 0, 0, 0]).values.get ⟨0, hi⟩ ∧
        ∀ j, ∀ hj : j < ((RandomWalk.init 1 4 1 0).compute [0, 0, 0, 0]).values.length,
          j < 0 → ((RandomWalk.init 1 4 1 0).compute [0, 0, 0, 0]).values.get ⟨j, hj⟩ < 0 :=
  (C3_first_nonneg_index (RandomWalk.init 1 4 1 0) [0, 0, 0, 0]).1 0 (by decide)

/-- **C1** (code bug): at `innerSteps=1, outerRepetitions=4, bias=1.0,
startOffset=0` (draws all `0`, i.e. every step up) the distribution is
`{1: 4}` and the first non-negative index is `0`, as the claim states;
but `get_success` returns `0`, not `1`, because the Python guard `if i:`
treats the index `0` like `None`.  The spec formula
`1 - (outer - sum(heights[0:])) / outer` evaluates to `1` on this state. -/
theorem C1_success_zero_index_code_bug :
    ((RandomWalk.init 1 4 1 0).compute [0, 0, 0, 0]).dict = [(1, 4)] ∧
    get_zero_or_above_value_index ((RandomWalk.init 1 4 1 0).compute [0, 0, 0, 0]).values
        = some 0 ∧
    get_success (RandomWalk.init 1 4 1 0) ((RandomWalk.init 1 4 1 0).compute [0, 0, 0, 0])
        = 0 ∧
    1 - ((((RandomWalk.init 1 4 1 0).outer : ℚ)
          - (((((RandomWalk.init 1 4 1 0).compute [0, 0, 0, 0]).heights.drop 0).sum : Nat) : ℚ))
        / ((RandomWalk.init 1 4 1 0).outer : ℚ)) = 1 := by
  refine ⟨by decide, by decide, by decide, ?_⟩
  have h4 : ((((RandomWalk.init 1 4 1 0).compute [0, 0, 0, 0]).heights.drop 0).sum) = 4 := by
    decide
  rw [h4]
  norm_num [RandomWalk.init]

/-! ### Degenerate parameters (C8) -/

theorem sorted_le_replicate (n : Nat) (a : Int) :
    List.Sorted (fun x y => x ≤ y) (List.replicate n a) := by
  induction n with
  | zero => simp
  | succ n ih =>
      rw [List.replicate_succ]
      refine List.Pairwise.cons ?_ ih
      intro b hb
      exact le_of_eq (List.eq_of_mem_replicate hb).symm

theorem foldl_dictIncr_replicate (a : Int) :
    ∀ n m : Nat,
      (List.replicate n a).foldl (fun d p => dictIncr p d) [(a, m)] = [(a, m + n)] := by
  intro n
  induction n with
  | zero => intro m; simp
  | succ n ih =>
      intro m
      rw [List.replicate_succ, List.foldl_cons,
        show dictIncr a [(a, m)] = [(a, m + 1)] from by simp [dictIncr], ih (m + 1)]
      exact congrArg (fun t => [(a, t)]) (by omega)

theorem compute_values_replicate (a : Int) (k : Nat) :
    compute_values (List.replicate (k + 1) a) = [(a, k + 1)] := by
  unfold compute_values
  rw [(sorted_le_replicate (k + 1) a).insertionSort_eq, List.replicate_succ,
    List.foldl_cons, show dictIncr a ([] : List (Int × Nat)) = [(a, 1)] from rfl,
    foldl_dictIncr_replicate]
  exact congrArg (fun t => [(a, t)]) (by omega)

theorem compute_stopping_points_of_inner_eq_zero (w : RandomWalk) (h : w.inner = 0) :
    ∀ (n : Nat) (us : List ℚ), compute_stopping_points w n us = List.replicate n (-w.z) := by
  intro n
  induction n with
  | zero => intro us; rfl
  | succ n ih =>
      intro us
      rw [List.replicate_succ]
      simp only [compute_stopping_points, ih, h]
      rw [List.take_zero]
      rfl

/-- **C8** (amended): construction never fails — `RandomWalk.init` stores
arbitrary parameters without validation, and a sampler built with the
invalid parameter `innerSteps = 0` (or any bias, e.g. outside `[0, 1]`)
is fully usable: `compute()` yields the distribution `{-z: outer}`. -/
theorem C8_no_validation (outer : Nat) (q : ℚ) (z : Int) (us : List ℚ)
    (h : 1 ≤ outer) :
    ((RandomWalk.init 0 outer q z).compute us).dict = [(-z, outer)] := by
  obtain ⟨k, rfl⟩ : ∃ k, outer = k + 1 := ⟨outer - 1, by omega⟩
  show compute_values
      (compute_stopping_points (RandomWalk.init 0 (k + 1) q z) (k + 1) us) = _
  rw [compute_stopping_points_of_inner_eq_zero (RandomWalk.init 0 (k + 1) q z) rfl,
    compute_values_replicate]
  rfl

/-- Witness for C8 at `outer=4`, bias `2` (outside `[0,1]`), `z=1`. -/
theorem C8_no_validation_witness :
    ((RandomWalk.init 0 4 2 1).compute []).dict = [(-1, 4)] :=
  C8_no_validation 4 2 1 [] (by decide)

/-- Counterexample to C8 as stated: constructing with `innerSteps = 0`
and bias `2` (both invalid) does not fail; the resulting sampler computes
a perfectly ordinary distribution. -/
theorem C8_invalid_params_accepted :
    ((RandomWalk.init 0 4 2 0).compute []).dict = [(0, 4)] := by
  decide

/-- **C4**: `compute()` (2D) builds two independent stopping-point
sequences of length `outer` with the 1D per-repetition algorithm, pairs
them positionally (`zip`), and the resulting dict maps each observed pair
to its occurrence count among the positional pairs, its keys listed in
strictly ascending `(x, y)` lexicographic order. -/
theorem C4_compute_2d_pairs_sorted (w : RandomWalk) (us : List ℚ) :
    (compute_stopping_points w w.outer us).length = w.outer ∧
    (compute_stopping_points w w.outer (us.drop (w.outer * w.inner))).length = w.outer ∧
    (w.compute_2d us).dict
        = compute_values_2d (compute_stopping_points w w.outer us)
            (compute_stopping_points w w.outer (us.drop (w.outer * w.inner))) ∧
    (∀ p : Int × Int,
      dictGetD (w.compute_2d us).dict p
        = occ_count p ((compute_stopping_points w w.outer us).zip
            (compute_stopping_points w w.outer (us.drop (w.outer * w.inner))))) ∧
    (∀ p : Int × Int,
      (p ∈ (w.compute_2d us).dict.map Prod.fst ↔
        p ∈ (compute_stopping_points w w.outer us).zip
            (compute_stopping_points w w.outer (us.drop (w.outer * w.inner))))) ∧
    ((w.compute_2d us).dict.map Prod.fst).Pairwise pairLt :=
  ⟨length_compute_stopping_points w w.outer us,
    length_compute_stopping_points w w.outer _,
    rfl,
    fun p => dictGetD_compute_values_2d _ _ p,
    fun p => mem_keys_compute_values_2d _ _ p,
    sorted_keys_compute_values_2d _ _⟩

/-- **C6**: `get_matrix` returns exactly the three co-indexed grids
(grid-x rows all equal to `X`, grid-y rows constant, grid-z the dict
count with default 0), where `X`/`Y` are the strictly ascending lists of
the distinct x and y values of the distribution keys; and the z-grid cells
sum to `outerRepetitions`.  (`1 ≤ outer` keeps the list-of-rows model
aligned with `np.matrix` on a nonempty distribution.) -/
theorem C6_matrix_shape_sum (w : RandomWalk) (us : List ℚ) (h : 1 ≤ w.outer) :
    get_matrix (w.compute_2d us)
        = (List.replicate (sorted_set (get_y_values (w.compute_2d us))).length
             (sorted_set (get_x_values (w.compute_2d us))),
           (sorted_set (get_y_values (w.compute_2d us))).map
             (fun yv => List.replicate
               (sorted_set (get_x_values (w.compute_2d us))).length yv),
           (sorted_set (get_y_values (w.compute_2d us))).map
             (fun yv => (sorted_set (get_x_values (w.compute_2d us))).map
               (fun xv => dictGetD (w.compute_2d us).dict (xv, yv)))) ∧
    (sorted_set (get_x_values (w.compute_2d us))).Pairwise (· < ·) ∧
    (∀ a, a ∈ sorted_set (get_x_values (w.compute_2d us)) ↔
      a ∈ get_x_values (w.compute_2d us)) ∧
    (sorted_set (get_y_values (w.compute_2d us))).Pairwise (· < ·) ∧
    (∀ a, a ∈ sorted_set (get_y_values (w.compute_2d us)) ↔
      a ∈ get_y_values (w.compute_2d us)) ∧
    ((get_matrix (w.compute_2d us)).2.2.map List.sum).sum = w.outer := by
  refine ⟨rfl, pairwise_lt_sorted_set _, fun a => mem_sorted_set _ a,
    pairwise_lt_sorted_set _, fun a => mem_sorted_set _ a, ?_⟩
  show (((sorted_set (get_y_values (w.compute_2d us))).map
      (fun yv => (sorted_set (get_x_values (w.compute_2d us))).map
        (fun xv => dictGetD (w.compute_2d us).dict (xv, yv)))).map List.sum).sum = w.outer
  rw [List.map_map]
  have hgrid := grid_sum (sorted_set (get_x_values (w.compute_2d us)))
    (sorted_set (get_y_values (w.compute_2d us)))
    (nodup_sorted_set _) (nodup_sorted_set _)
    (w.compute_2d us).dict
    (nodup_keys_compute_values_2d _ _)
    ?_
  · rw [show (List.sum ∘ fun yv => (sorted_set (get_x_values (w.compute_2d us))).map
        (fun xv => dictGetD (w.compute_2d us).dict (xv, yv)))
      = (fun yv => ((sorted_set (get_x_values (w.compute_2d us))).map
        (fun xv => dictGetD (w.compute_2d us).dict (xv, yv))).sum) from rfl]
    rw [hgrid]
    show ((compute_values_2d _ _).map Prod.snd).sum = w.outer
    rw [sum_snd_compute_values_2d, List.length_zip,
      length_compute_stopping_points, length_compute_stopping_points]
    exact Nat.min_self w.outer
  · intro kv hkv
    constructor
    · rw [mem_sorted_set]
      exact List.mem_map_of_mem Prod.fst (List.mem_map_of_mem Prod.fst hkv)
    · rw [mem_sorted_set]
      exact List.mem_map_of_mem Prod.snd (List.mem_map_of_mem Prod.fst hkv)

/-- Witness for C6 at `inner=1, outer=2, q=1, z=0`: the z-grid `[[2]]`
sums to `outer = 2`. -/
theorem C6_matrix_shape_sum_witness :
    ((get_matrix ((RandomWalk.init 1 2 1 0).compute_2d [0, 0, 0, 0])).2.2.map
      List.sum).sum = (RandomWalk.init 1 2 1 0).outer :=
  (C6_matrix_shape_sum (RandomWalk.init 1 2 1 0) [0, 0, 0, 0] (by decide)).2.2.2.2.2

/-- **C5**: both partitioned views are grids of the same shape as
`matrix()`'s z-grid.  A cell whose coordinate satisfies the view's
condition (`x < 0 ∨ y < 0` for the below view, `x ≥ 0 ∧ y ≥ 0` for the
above view) holds `dict.get` of the coordinate: the distribution count
(`some cnt`, with `(coordinate, cnt)` in the dict) when the coordinate
was observed, and the NaN sentinel (`none`, the `None` of the missing-key
lookup stored as NaN) when it was not; a cell that does not satisfy the
condition keeps the NaN fill.  The missing-key lookup thus propagates as
NaN rather than zero. -/
theorem C5_partitioned_matrices (w : RandomWalk) (us : List ℚ) :
    (get_below_zero_matrix (w.compute_2d us)).length
        = (get_matrix (w.compute_2d us)).2.2.length ∧
    (∀ row ∈ get_below_zero_matrix (w.compute_2d us),
      row.length = (sorted_set (get_x_values (w.compute_2d us))).length) ∧
    (get_above_zero_matrix (w.compute_2d us)).length
        = (get_matrix (w.compute_2d us)).2.2.length ∧
    (∀ row ∈ get_above_zero_matrix (w.compute_2d us),
      row.length = (sorted_set (get_x_values (w.compute_2d us))).length) ∧
    get_below_zero_matrix (w.compute_2d us)
        = (sorted_set (get_y_values (w.compute_2d us))).map (fun yv =>
            (sorted_set (get_x_values (w.compute_2d us))).map (fun xv =>
              if xv < 0 || yv < 0 then
                dict_get (w.compute_2d us).dict (xv, yv)
              else none)) ∧
    get_above_zero_matrix (w.compute_2d us)
        = (sorted_set (get_y_values (w.compute_2d us))).map (fun yv =>
            (sorted_set (get_x_values (w.compute_2d us))).map (fun xv =>
              if 0 ≤ xv && 0 ≤ yv then
                dict_get (w.compute_2d us).dict (xv, yv)
              else none)) ∧
    (∀ (p : Int × Int) (cnt : Nat),
      (dict_get (w.compute_2d us).dict p = some cnt ↔ (p, cnt) ∈ (w.compute_2d us).dict)) ∧
    (∀ p : Int × Int,
      (dict_get (w.compute_2d us).dict p = none ↔
        p ∉ (w.compute_2d us).dict.map Prod.fst)) := by
  refine ⟨?_, ?_, ?_, ?_, masked_rows_eq_map _ _ _ _, masked_rows_eq_map _ _ _ _,
    fun p cnt => dict_get_some_iff (nodup_keys_compute_values_2d _ _),
    fun p => dict_get_eq_none_iff _ p⟩
  · show (masked_rows _ _ _ _).length = _
    rw [masked_rows_eq_map]
    simp [get_matrix]
  · intro row hrow
    show row.length = _
    rw [show get_below_zero_matrix (w.compute_2d us)
        = masked_rows (w.compute_2d us).dict (fun xv yv => xv < 0 || yv < 0)
            (sorted_set (get_x_values (w.compute_2d us)))
            (sorted_set (get_y_values (w.compute_2d us))) from rfl,
      masked_rows_eq_map] at hrow
    obtain ⟨yv, _, rfl⟩ := List.mem_map.mp hrow
    simp
  · show (masked_rows _ _ _ _).length = _
    rw [masked_rows_eq_map]
    simp [get_matrix]
  · intro row hrow
    show row.length = _
    rw [show get_above_zero_matrix (w.compute_2d us)
        = masked_rows (w.compute_2d us).dict (fun xv yv => 0 ≤ xv && 0 ≤ yv)
            (sorted_set (get_x_values (w.compute_2d us)))
            (sorted_set (get_y_values (w.compute_2d us))) from rfl,
      masked_rows_eq_map] at hrow
    obtain ⟨yv, _, rfl⟩ := List.mem_map.mp hrow
    simp

/-- Witness for C5 at the sampler of `inner=1, outer=2, q=1/2, z=1` with
draws `9/10, 1/10, 1/10, 9/10` (distribution `{(-1,0):1, (0,-1):1}`):
the first row of the below view is `[NaN, 1]` — NaN at the
qualifying-but-unobserved `(-1,-1)`, the count at the observed `(0,-1)` —
and its length is that of `X = [-1, 0]`. -/
theorem C5_partitioned_matrices_witness :
    ([none, some 1] : List (Option Nat)).length
      = (sorted_set (get_x_values ((RandomWalk.init 1 2 (mkRat 1 2) 1).compute_2d
          [mkRat 9 10, mkRat 1 10, mkRat 1 10, mkRat 9 10]))).length :=
  (C5_partitioned_matrices (RandomWalk.init 1 2 (mkRat 1 2) 1)
      [mkRat 9 10, mkRat 1 10, mkRat 1 10, mkRat 9 10]).2.1
    [none, some 1] (by decide)
